import Mathlib

/-!
Verification development for the rigid-go library (rigid.go): cryptographically
signed ULIDs with HMAC integrity verification.

Modelling conventions:
* Go strings are byte sequences; we model them as `List Nat`, one entry per byte.
* HMAC-SHA-256 (Go's crypto/hmac + crypto/sha256) is an external primitive; the
  development is parametric in a function `hmac : Str → Str → Str` mapping a key
  and a message to a digest.
* The external ULID primitive (github.com/oklog/ulid/v2) is modelled from the
  spec: a 128-bit value made of a 48-bit millisecond timestamp and 80 bits of
  entropy, encoded as a fixed 26-character Crockford base32 string.
* Go's fallible functions returning `(T, error)` become `Except`/`Option` values
  or explicit pairs, and the nondeterministic inputs of `Generate` (clock and
  entropy) become explicit arguments.
-/

set_option maxRecDepth 10000

namespace RigidGo

/-- Go strings are byte sequences; each list entry is one byte. -/
abbrev Str := List Nat

/-- The byte value of the ASCII hyphen-minus character, the separator of the
rigid wire format. -/
def hyphen : Nat := 45

/-- The error values of rigid.go (ErrInvalidFormat, ErrInvalidULID,
ErrIntegrityFailure, ErrEmptySecretKey, ErrInvalidSigLength). -/
inductive RErr where
  | invalidFormat
  | invalidULID
  | integrityFailure
  | emptySecretKey
  | invalidSigLength
  deriving DecidableEq, Repr

/-- DefaultSignatureLength from rigid.go: the default HMAC signature length in bytes. -/
def DefaultSignatureLength : Nat := 8

/-- MinSignatureLength from rigid.go: the minimum allowed signature length in bytes. -/
def MinSignatureLength : Nat := 4

/-- MaxSignatureLength from rigid.go: the maximum allowed signature length in bytes. -/
def MaxSignatureLength : Nat := 32

/-- Modelled from the spec: the Crockford base32 alphabet
0123456789ABCDEFGHJKMNPQRSTVWXYZ used by the external sortable-unique-value
primitive for its 26-character encoding, as byte values. -/
def crockford : Str :=
  [48, 49, 50, 51, 52, 53, 54, 55, 56, 57,
   65, 66, 67, 68, 69, 70, 71, 72,
   74, 75, 77, 78,
   80, 81, 82, 83, 84, 86, 87, 88, 89, 90]

/-- Modelled from the spec: the fixed 26-character textual encoding of a 128-bit
sortable unique value, big-endian, five bits per character. -/
def ulidString (v : Nat) : Str :=
  (List.range 26).map (fun i => crockford.getD ((v >>> (5 * (25 - i))) % 32) 0)

/-- Modelled from the spec: the value of one character of the 26-character
encoding (case-insensitive Crockford digits; 255 marks an invalid character). -/
def ulidDec (c : Nat) : Nat :=
  let cu := if 97 ≤ c ∧ c ≤ 122 then c - 32 else c
  let i := crockford.indexOf cu
  if i < 32 then i else 255

/-- Modelled from the spec: parsing of the 26-character encoding by the external
sortable-unique-value primitive. It fails when the input is not exactly 26
characters long or when the leading character would overflow 128 bits (the
26-character form carries 130 bits); otherwise it decodes big-endian, five bits
per character, into a 128-bit value. -/
def ulidParse (s : Str) : Option Nat :=
  if s.length ≠ 26 then none
  else if 55 < s.headD 0 then none
  else some ((s.foldl (fun a c => a * 32 + ulidDec c) 0) % 2 ^ 128)

/-- Modelled from the spec: a fresh sortable unique value is the 48-bit
millisecond timestamp in the high bits and 80 bits of entropy in the low bits. -/
def ulidNew (ts ent : Nat) : Nat := (ts % 2 ^ 48) * 2 ^ 80 + ent % 2 ^ 80

/-- Modelled from the spec: the millisecond timestamp embedded in a sortable
unique value is its top 48 bits. -/
def ulidTime (v : Nat) : Nat := v >>> 80

/-- The RFC 4648 base32 alphabet A-Z then 2-7, as used by Go's encoding/base32
StdEncoding, as byte values. -/
def b32Alphabet : Str :=
  [65, 66, 67, 68, 69, 70, 71, 72, 73, 74, 75, 76, 77, 78, 79, 80, 81, 82, 83,
   84, 85, 86, 87, 88, 89, 90, 50, 51, 52, 53, 54, 55]

/-- The big-endian integer value of a byte group. -/
def beBytes (g : Str) : Nat := g.foldl (fun a b => a * 256 + b % 256) 0

/-- The number of base32 characters produced for n input bytes with padding
disabled: one character per five bits, the last group zero-padded. -/
def b32OutLen (n : Nat) : Nat := (8 * n + 4) / 5

/-- One group step of Go's encoding/base32 encoder: a group of at most five
input bytes read big-endian, zero-padded on the right to a five-bit boundary,
emitted as five-bit characters. -/
def b32EncGroup (g : Str) : Str :=
  let outLen := b32OutLen g.length
  let v := beBytes g <<< (5 * outLen - 8 * g.length)
  (List.range outLen).map (fun i => b32Alphabet.getD ((v >>> (5 * (outLen - 1 - i))) % 32) 0)

/-- Go's encoding/base32 StdEncoding encoder with padding disabled: the input is
consumed in groups of five bytes, each group encoded independently. -/
def b32Encode : Str → Str
  | [] => []
  | a :: b :: c :: d :: e :: rest => b32EncGroup [a, b, c, d, e] ++ b32Encode rest
  | l => b32EncGroup l

/-- The encoding described by the spec sentence on signature text: the whole
byte string read as one big-endian bit string, zero-padded on the right to a
multiple of five bits, split into five-bit groups and mapped through the base32
alphabet, with no padding characters. -/
def b32SpecEncode (l : Str) : Str :=
  let outLen := b32OutLen l.length
  let v := beBytes l <<< (5 * outLen - 8 * l.length)
  (List.range outLen).map (fun i => b32Alphabet.getD ((v >>> (5 * (outLen - 1 - i))) % 32) 0)

/-- Go's strings.ToUpper on one byte, restricted to ASCII, which is all it ever
receives in rigid.go (base32 output). -/
def toUpperByte (b : Nat) : Nat := if 97 ≤ b ∧ b ≤ 122 then b - 32 else b

/-- Go's strings.ToUpper over a byte string, restricted to ASCII. -/
def toUpper (s : Str) : Str := s.map toUpperByte

/-- The Rigid structure of rigid.go: the copied secret key and the configured
signature length. The entropy source and mutex are per-call nondeterminism and
concurrency control and are modelled as explicit arguments of Generate. -/
structure Rigid where
  secretKey : Str
  signatureLength : Nat
  deriving DecidableEq, Repr

/-- VerifyResult from rigid.go: validation status, extracted ULID text and
extracted metadata. -/
structure VerifyResult where
  Valid : Bool
  ULID : Str
  Metadata : Str
  deriving DecidableEq, Repr

/-- The zero value of VerifyResult, which Verify returns on every failure. -/
def VerifyResult.zero : VerifyResult := ⟨false, [], []⟩

/-- NewRigid from rigid.go. The variadic signatureLength parameter is modelled
as an optional Go int: absent means DefaultSignatureLength; an explicit value
must lie in the closed range from MinSignatureLength to MaxSignatureLength. -/
def NewRigid (secretKey : Str) (signatureLength : Option Int) : Except RErr Rigid :=
  if secretKey.length = 0 then .error .emptySecretKey
  else
    match signatureLength with
    | none => .ok ⟨secretKey, DefaultSignatureLength⟩
    | some n =>
      if n < (MinSignatureLength : Int) ∨ (MaxSignatureLength : Int) < n then
        .error .invalidSigLength
      else .ok ⟨secretKey, n.toNat⟩

/-- generateSignature from rigid.go: HMAC over the ULID text followed by the
metadata bytes when the metadata is non-empty, truncated to the configured
number of bytes, base32-encoded without padding and upper-cased. Parametric in
the external HMAC-SHA-256 primitive. -/
def generateSignature (hmac : Str → Str → Str) (r : Rigid) (ulidStr metadata : Str) : Str :=
  let msg := ulidStr ++ (if metadata = [] then [] else metadata)
  let sum := hmac r.secretKey msg
  let truncated := sum.take r.signatureLength
  toUpper (b32Encode truncated)

/-- Generate from rigid.go on its success path. The wall-clock millisecond
timestamp and the 80-bit entropy drawn under the mutex are explicit arguments;
the variadic metadata parameter is the list of supplied metadata arguments, of
which only the first is used. -/
def Generate (hmac : Str → Str → Str) (r : Rigid) (ts ent : Nat) (metadata : List Str) : Str :=
  let ulidStr := ulidString (ulidNew ts ent)
  let metadataStr := metadata.headD []
  let signature := generateSignature hmac r ulidStr metadataStr
  (ulidStr ++ hyphen :: signature) ++ (if metadataStr = [] then [] else hyphen :: metadataStr)

/-- The metadata reconstruction of Verify in rigid.go: when more than two
segments result from the split, all segments after the second are rejoined with
hyphens. -/
def decodeMeta (parts : List Str) : Str :=
  if 2 < parts.length then [hyphen].intercalate (parts.drop 2) else []

/-- subtle.ConstantTimeCompare from Go's crypto/subtle: 1 when the inputs have
equal length and an OR-accumulated XOR over all byte pairs is zero, else 0. -/
def ConstantTimeCompare (x y : Str) : Nat :=
  if x.length ≠ y.length then 0
  else if (List.zipWith (fun a b => a ^^^ b) x y).foldl (fun a b => a ||| b) 0 = 0 then 1
  else 0

/-- Verify from rigid.go, parametric in the byte-comparison routine so that
reachability of the comparison can be stated: split on hyphen, require at least
two segments, parse the first segment as a ULID, recompute the expected
signature, check lengths, then compare. Every failure returns the zero
VerifyResult together with the error. -/
def VerifyWith (cmp : Str → Str → Nat) (hmac : Str → Str → Str) (r : Rigid)
    (secureULID : Str) : VerifyResult × Option RErr :=
  let parts := secureULID.splitOn hyphen
  if parts.length < 2 then (VerifyResult.zero, some .invalidFormat)
  else
    let ulidStr := parts.getD 0 []
    let signature := parts.getD 1 []
    let metadata := decodeMeta parts
    match ulidParse ulidStr with
    | none => (VerifyResult.zero, some .invalidULID)
    | some _ =>
      let expectedSignature := generateSignature hmac r ulidStr metadata
      if signature.length ≠ expectedSignature.length then
        (VerifyResult.zero, some .integrityFailure)
      else if cmp signature expectedSignature ≠ 1 then
        (VerifyResult.zero, some .integrityFailure)
      else (⟨true, ulidStr, metadata⟩, none)

/-- Verify from rigid.go: VerifyWith instantiated with the constant-time
comparison of crypto/subtle, exactly as the source calls it. -/
def Verify (hmac : Str → Str → Str) (r : Rigid) (secureULID : Str) :
    VerifyResult × Option RErr :=
  VerifyWith ConstantTimeCompare hmac r secureULID

/-- ExtractULID from rigid.go: split on hyphen, require at least two segments,
parse the first segment. The receiver is unused by the source and omitted. -/
def ExtractULID (secureULID : Str) : Except RErr Nat :=
  let parts := secureULID.splitOn hyphen
  if parts.length < 2 then .error .invalidFormat
  else
    match ulidParse (parts.getD 0 []) with
    | none => .error .invalidULID
    | some v => .ok v

/-- ExtractTimestamp from rigid.go: extract the ULID and return its embedded
millisecond timestamp, propagating extraction errors. -/
def ExtractTimestamp (secureULID : Str) : Except RErr Nat :=
  match ExtractULID secureULID with
  | .error e => .error e
  | .ok v => .ok (ulidTime v)

/-- A concrete stand-in for the external HMAC primitive, used to instantiate
the parametric theorems on concrete inputs: a fixed 32-byte digest. -/
def hmac0 : Str → Str → Str := fun _ _ => List.range 32

/-- A concrete Rigid instance with a one-byte key and the default signature
length, for concrete instantiations. -/
def rigid0 : Rigid := ⟨[107], 8⟩

/-- A concrete metadata sample containing a hyphen: the bytes of a-b. -/
def metaSample : Str := [97, 45, 98]

/-- The bytes of the string no-hyphens-here. -/
def strNoHyphensHere : Str :=
  [110, 111, 45, 104, 121, 112, 104, 101, 110, 115, 45, 104, 101, 114, 101]

/-- The bytes of the string nohyphenshere, a genuinely single-segment input. -/
def strSingleSegment : Str :=
  [110, 111, 104, 121, 112, 104, 101, 110, 115, 104, 101, 114, 101]

/-- The bytes of the string not-a-ulid-SIGNATURE. -/
def strNotAUlid : Str :=
  [110, 111, 116, 45, 97, 45, 117, 108, 105, 100, 45,
   83, 73, 71, 78, 65, 84, 85, 82, 69]

/-- Folding more bytes onto an accumulator scales it by 256 per byte. -/
theorem beBytes_foldl (b : Str) (x : Nat) :
    b.foldl (fun a c => a * 256 + c % 256) x =
      x * 256 ^ b.length + b.foldl (fun a c => a * 256 + c % 256) 0 := by
  induction b generalizing x with
  | nil => simp
  | cons c b ih =>
    simp only [List.foldl_cons, List.length_cons]
    rw [ih (x * 256 + c % 256), ih (0 * 256 + c % 256)]
    ring

/-- The big-endian value of an append splits at a power of 256. -/
theorem beBytes_append (a b : Str) :
    beBytes (a ++ b) = beBytes a * 256 ^ b.length + beBytes b := by
  unfold beBytes
  rw [List.foldl_append]
  exact beBytes_foldl b _

/-- The big-endian value of a byte string is bounded by 256 to its length. -/
theorem beBytes_lt (b : Str) : beBytes b < 256 ^ b.length := by
  induction b with
  | nil => simp [beBytes]
  | cons c b ih =>
    have hb : beBytes (c :: b) = (c % 256) * 256 ^ b.length + beBytes b := by
      unfold beBytes
      simp only [List.foldl_cons]
      rw [beBytes_foldl b (0 * 256 + c % 256)]
      ring_nf
    rw [hb, List.length_cons]
    have hc : c % 256 < 256 := Nat.mod_lt _ (by norm_num)
    calc (c % 256) * 256 ^ b.length + beBytes b
        < (c % 256) * 256 ^ b.length + 256 ^ b.length := by omega
      _ = (c % 256 + 1) * 256 ^ b.length := by ring
      _ ≤ 256 * 256 ^ b.length := Nat.mul_le_mul_right _ (by omega)
      _ = 256 ^ (b.length + 1) := by ring

/-- Shifting a split value down past the low part recovers the high part. -/
theorem shift_peel_low (x vr K d : Nat) (hvr : vr < 2 ^ K) :
    (x * 2 ^ K + vr) >>> (K + d) = x >>> d := by
  rw [Nat.shiftRight_add]
  congr 1
  rw [Nat.shiftRight_eq_div_pow, Nat.mul_comm x (2 ^ K),
    Nat.mul_add_div (Nat.pos_pow_of_pos _ (by norm_num)), Nat.div_eq_of_lt hvr, Nat.add_zero]

/-- A five-bit group taken strictly below the split point ignores the high
part of a split value. -/
theorem shift_peel_high (x vr K s : Nat) (hs5 : s + 5 ≤ K)
    (hdvd : 5 ∣ K - s) : ((x * 2 ^ K + vr) >>> s) % 32 = (vr >>> s) % 32 := by
  rw [Nat.shiftRight_eq_div_pow, Nat.shiftRight_eq_div_pow]
  have hK : x * 2 ^ K = x * 2 ^ (K - s) * 2 ^ s := by
    rw [mul_assoc, ← pow_add]
    congr 2
    omega
  rw [hK, add_comm, Nat.add_mul_div_right _ _ (Nat.pos_pow_of_pos s (by norm_num))]
  obtain ⟨t, ht⟩ : ∃ t, K - s = 5 * (t + 1) := by
    obtain ⟨u, hu⟩ := hdvd
    exact ⟨u - 1, by omega⟩
  rw [ht, show x * 2 ^ (5 * (t + 1)) = x * 2 ^ (5 * t) * 32 by
    rw [mul_assoc]
    congr 1
    rw [show 5 * (t + 1) = 5 * t + 5 by ring, pow_add]
    norm_num]
  exact Nat.add_mul_mod_self_right _ _ _

/-- Grouping invariance of unpadded base32: encoding a five-byte group and the
remainder separately agrees with encoding the whole string as one bit stream. -/
theorem b32SpecEncode_peel (g rest : Str) (hg : g.length = 5) :
    b32SpecEncode (g ++ rest) = b32SpecEncode g ++ b32SpecEncode rest := by
  have hlen : (g ++ rest).length = 5 + rest.length := by simp [hg]
  have hout : b32OutLen (5 + rest.length) = 8 + b32OutLen rest.length := by
    unfold b32OutLen; omega
  have houtg : b32OutLen 5 = 8 := by norm_num [b32OutLen]
  have hple : 8 * rest.length ≤ 5 * b32OutLen rest.length := by
    unfold b32OutLen; omega
  set m := rest.length with hm
  set outR := b32OutLen m with houtR
  set p := 5 * outR - 8 * m with hp
  set Bg := beBytes g with hBg
  set Br := beBytes rest with hBr
  have hBrlt : Br < 2 ^ (8 * m) := by
    have h0 := beBytes_lt rest
    rw [← hm, ← hBr] at h0
    calc Br < 256 ^ m := h0
      _ = 2 ^ (8 * m) := by rw [show (256 : Nat) = 2 ^ 8 by norm_num, ← pow_mul]
  have h256 : (256 : Nat) ^ m * 2 ^ p = 2 ^ (5 * outR) := by
    rw [show (256 : Nat) = 2 ^ 8 by norm_num, ← pow_mul, ← pow_add]
    congr 1
    omega
  have hVsplit : beBytes (g ++ rest) <<< p = Bg * 2 ^ (5 * outR) + Br <<< p := by
    rw [beBytes_append, ← hm, ← hBg, ← hBr, Nat.shiftLeft_eq, Nat.shiftLeft_eq, add_mul,
      mul_assoc, h256]
  have hvrlt : Br <<< p < 2 ^ (5 * outR) := by
    rw [Nat.shiftLeft_eq]
    calc Br * 2 ^ p < 2 ^ (8 * m) * 2 ^ p :=
          Nat.mul_lt_mul_of_lt_of_le hBrlt (le_refl _) (Nat.pos_pow_of_pos p (by norm_num))
      _ = 2 ^ (8 * m + p) := by rw [← pow_add]
      _ = 2 ^ (5 * outR) := by congr 1; omega
  apply List.ext_getElem
  · simp only [b32SpecEncode, List.length_map, List.length_range, List.length_append, hlen,
      hout, hg, houtg, ← hm, ← houtR]
  · intro i h1 h2
    simp only [b32SpecEncode, List.length_map, List.length_range, hlen, hout, ← hm,
      ← houtR] at h1
    simp only [b32SpecEncode, List.getElem_map, List.getElem_range, hlen, hout, ← hm, ← houtR]
    by_cases hi : i < 8
    · rw [List.getElem_append_left (by
        simp only [b32SpecEncode, List.length_map, List.length_range, hg, houtg]
        exact hi)]
      simp only [b32SpecEncode, List.getElem_map, List.getElem_range, hg, houtg, ← hBg]
      rw [show 5 * (8 : Nat) - 8 * 5 = 0 from rfl, Nat.shiftLeft_zero,
        show 5 * (8 + outR) - 8 * (5 + m) = p by omega, hVsplit,
        show 5 * (8 + outR - 1 - i) = 5 * outR + 5 * (8 - 1 - i) by omega,
        shift_peel_low Bg (Br <<< p) (5 * outR) (5 * (8 - 1 - i)) hvrlt]
    · rw [List.getElem_append_right (by
        simp only [b32SpecEncode, List.length_map, List.length_range, hg, houtg]
        omega)]
      simp only [b32SpecEncode, List.getElem_map, List.getElem_range, List.length_map,
        List.length_range, hg, houtg, ← hBr, ← houtR]
      rw [show 5 * (8 + outR) - 8 * (5 + m) = p by omega, hVsplit, ← hp,
        show 5 * (8 + outR - 1 - i) = 5 * (outR - 1 - (i - 8)) by omega,
        shift_peel_high Bg (Br <<< p) (5 * outR) (5 * (outR - 1 - (i - 8)))
          (by omega) (by omega)]

/-- Go's grouped base32 encoder computes the spec's whole-string base32
encoding. -/
theorem b32Encode_eq_spec (l : Str) : b32Encode l = b32SpecEncode l := by
  match l with
  | [] => rfl
  | [a] => rfl
  | [a, b] => rfl
  | [a, b, c] => rfl
  | [a, b, c, d] => rfl
  | a :: b :: c :: d :: e :: rest =>
    have ih := b32Encode_eq_spec rest
    show b32EncGroup [a, b, c, d, e] ++ b32Encode rest = _
    rw [ih, show (a :: b :: c :: d :: e :: rest : Str) = [a, b, c, d, e] ++ rest from rfl,
      b32SpecEncode_peel [a, b, c, d, e] rest rfl]
    rfl

/-- Reconstructing a number from its big-endian five-bit digits, most
significant first. -/
theorem foldl_digits (n : Nat) : ∀ v a : Nat,
    List.foldl (fun acc i => acc * 32 + (v >>> (5 * (n - 1 - i))) % 32) a (List.range n) =
      a * 32 ^ n + v % 32 ^ n := by
  induction n with
  | zero => intro v a; simp [Nat.mod_one]
  | succ n ih =>
    intro v a
    rw [List.range_succ, List.foldl_append]
    have hstep :
        List.foldl (fun acc i => acc * 32 + (v >>> (5 * (n + 1 - 1 - i))) % 32) a
            (List.range n) =
          List.foldl (fun acc i => acc * 32 + ((v >>> 5) >>> (5 * (n - 1 - i))) % 32) a
            (List.range n) := by
      apply List.foldl_ext
      intro acc i hi
      have hi' : i < n := List.mem_range.mp hi
      rw [← Nat.shiftRight_add]
      congr 3
      omega
    rw [hstep, ih (v >>> 5) a]
    simp only [List.foldl_cons, List.foldl_nil]
    rw [show 5 * (n + 1 - 1 - n) = 0 by omega, Nat.shiftRight_zero]
    rw [Nat.shiftRight_eq_div_pow, show (2 : Nat) ^ 5 = 32 from rfl]
    rw [show 32 ^ (n + 1) = 32 * 32 ^ n from by rw [pow_succ]; ring, Nat.mod_mul]
    ring

/-- Decoding the 26-character encoding of a value recovers the value modulo
32 to the 26th. -/
theorem ulidString_fold (v : Nat) :
    (ulidString v).foldl (fun a c => a * 32 + ulidDec c) 0 = v % 32 ^ 26 := by
  unfold ulidString
  rw [List.foldl_map]
  have hext :
      List.foldl (fun a i => a * 32 + ulidDec (crockford.getD ((v >>> (5 * (25 - i))) % 32) 0))
          0 (List.range 26) =
        List.foldl (fun a i => a * 32 + (v >>> (5 * (26 - 1 - i))) % 32) 0 (List.range 26) := by
    apply List.foldl_ext
    intro a i hi
    have hd : (v >>> (5 * (25 - i))) % 32 < 32 := Nat.mod_lt _ (by norm_num)
    have hdec : ∀ d, d < 32 → ulidDec (crockford.getD d 0) = d := by decide
    rw [hdec _ hd]
  rw [hext, foldl_digits 26 v 0]
  ring

/-- A fresh sortable unique value fits in 128 bits. -/
theorem ulidNew_lt (ts ent : Nat) : ulidNew ts ent < 2 ^ 128 := by
  unfold ulidNew
  have h1 : ts % 2 ^ 48 < 2 ^ 48 := Nat.mod_lt _ (by norm_num)
  have h2 : ent % 2 ^ 80 < 2 ^ 80 := Nat.mod_lt _ (by norm_num)
  calc (ts % 2 ^ 48) * 2 ^ 80 + ent % 2 ^ 80 < (ts % 2 ^ 48) * 2 ^ 80 + 2 ^ 80 := by omega
    _ = (ts % 2 ^ 48 + 1) * 2 ^ 80 := by ring
    _ ≤ 2 ^ 48 * 2 ^ 80 := Nat.mul_le_mul_right _ (by omega)
    _ = 2 ^ 128 := by norm_num

/-- The timestamp of a fresh sortable unique value is its timestamp argument,
reduced to 48 bits. -/
theorem ulidTime_ulidNew (ts ent : Nat) : ulidTime (ulidNew ts ent) = ts % 2 ^ 48 := by
  unfold ulidTime ulidNew
  rw [Nat.shiftRight_eq_div_pow, Nat.mul_comm (ts % 2 ^ 48) (2 ^ 80),
    Nat.mul_add_div (Nat.pos_pow_of_pos _ (by norm_num)),
    Nat.div_eq_of_lt (Nat.mod_lt _ (by norm_num)), Nat.add_zero]

/-- The 26-character encoding has length 26. -/
theorem ulidString_length (v : Nat) : (ulidString v).length = 26 := by
  simp [ulidString]

/-- Parsing the 26-character encoding of a 128-bit value recovers the value. -/
theorem ulidParse_ulidString (v : Nat) (hv : v < 2 ^ 128) :
    ulidParse (ulidString v) = some v := by
  have hhead : (ulidString v).headD 0 = crockford.getD ((v >>> 125) % 32) 0 := rfl
  have h8 : v >>> 125 < 8 := by
    rw [Nat.shiftRight_eq_div_pow]
    apply Nat.div_lt_of_lt_mul
    calc v < 2 ^ 128 := hv
      _ = 2 ^ 125 * 8 := by norm_num
  have hheadle : (ulidString v).headD 0 ≤ 55 := by
    rw [hhead, Nat.mod_eq_of_lt (lt_of_lt_of_le h8 (by norm_num))]
    have hcr : ∀ d, d < 8 → crockford.getD d 0 ≤ 55 := by decide
    exact hcr _ h8
  unfold ulidParse
  rw [if_neg (by rw [ulidString_length]; omega), if_neg (by omega), ulidString_fold]
  have hv26 : v % 32 ^ 26 = v := Nat.mod_eq_of_lt (lt_of_lt_of_le hv (by norm_num))
  rw [hv26, Nat.mod_eq_of_lt hv]

/-- No character of the 26-character encoding is a hyphen. -/
theorem hyphen_not_mem_ulidString (v : Nat) : hyphen ∉ ulidString v := by
  intro h
  unfold ulidString at h
  rw [List.mem_map] at h
  obtain ⟨i, hi, hfi⟩ := h
  have hd : (v >>> (5 * (25 - i))) % 32 < 32 := Nat.mod_lt _ (by norm_num)
  have hcr : ∀ d, d < 32 → ¬crockford.getD d 0 = hyphen := by decide
  exact hcr _ hd hfi

/-- No character of an upper-cased unpadded base32 encoding is a hyphen. -/
theorem hyphen_not_mem_sig (l : Str) : hyphen ∉ toUpper (b32Encode l) := by
  intro h
  unfold toUpper at h
  rw [List.mem_map] at h
  obtain ⟨c, hc, hcu⟩ := h
  rw [b32Encode_eq_spec] at hc
  unfold b32SpecEncode at hc
  rw [List.mem_map] at hc
  obtain ⟨i, hi, hfi⟩ := hc
  have hd : (beBytes l <<< (5 * b32OutLen l.length - 8 * l.length) >>>
      (5 * (b32OutLen l.length - 1 - i))) % 32 < 32 := Nat.mod_lt _ (by norm_num)
  have key : ∀ d, d < 32 → ¬toUpperByte (b32Alphabet.getD d 0) = hyphen := by decide
  exact key _ hd (by rw [← hfi] at hcu; exact hcu)

/-- Splitting a two-segment string whose segments are hyphen-free. -/
theorem splitOn_two (u sig : Str) (hu : hyphen ∉ u) (hs : hyphen ∉ sig) :
    (u ++ hyphen :: sig).splitOn hyphen = [u, sig] := by
  unfold List.splitOn
  rw [List.splitOnP_first _ u (by
      intro x hx
      simp only [beq_iff_eq]
      exact fun he => hu (he ▸ hx)) hyphen (by simp),
    List.splitOnP_eq_single _ _ (by
      intro x hx
      simp only [beq_iff_eq]
      exact fun he => hs (he ▸ hx))]

/-- Splitting a full identifier: hyphen-free id and signature segments followed
by arbitrary metadata. -/
theorem splitOn_full (u sig m : Str) (hu : hyphen ∉ u) (hs : hyphen ∉ sig) :
    (u ++ hyphen :: (sig ++ hyphen :: m)).splitOn hyphen =
      u :: sig :: m.splitOn hyphen := by
  unfold List.splitOn
  rw [List.splitOnP_first _ u (by
      intro x hx
      simp only [beq_iff_eq]
      exact fun he => hu (he ▸ hx)) hyphen (by simp),
    List.splitOnP_first _ sig (by
      intro x hx
      simp only [beq_iff_eq]
      exact fun he => hs (he ▸ hx)) hyphen (by simp)]

/-- The comparison of crypto/subtle returns 1 on equal inputs. -/
theorem ctc_self (x : Str) : ConstantTimeCompare x x = 1 := by
  unfold ConstantTimeCompare
  rw [if_neg (by simp)]
  have hz : List.zipWith (fun a b => a ^^^ b) x x = x.map (fun _ => 0) := by
    induction x with
    | nil => rfl
    | cons c x ih => simp [List.zipWith_cons_cons, Nat.xor_self, ih]
  have hfold : ∀ (l : Str), List.foldl (fun a b => a ||| b) 0 (l.map (fun _ => 0)) = 0 := by
    intro l
    induction l with
    | nil => rfl
    | cons c l ih => simpa using ih
  rw [hz, if_pos (hfold x)]

/-- Generate with an effectively absent metadata argument produces the
two-segment form. -/
theorem Generate_no_meta (hmac : Str → Str → Str) (r : Rigid) (ts ent : Nat)
    (mlist : List Str) (hm : mlist.headD [] = []) :
    Generate hmac r ts ent mlist =
      ulidString (ulidNew ts ent) ++ hyphen ::
        generateSignature hmac r (ulidString (ulidNew ts ent)) [] := by
  unfold Generate
  rw [hm]
  simp

/-- Generate with non-empty metadata produces the three-part form, reassociated
to expose the first hyphen. -/
theorem Generate_with_meta (hmac : Str → Str → Str) (r : Rigid) (ts ent : Nat)
    (mlist : List Str) (m : Str) (hm : mlist.headD [] = m) (hne : m ≠ []) :
    Generate hmac r ts ent mlist =
      ulidString (ulidNew ts ent) ++ hyphen ::
        (generateSignature hmac r (ulidString (ulidNew ts ent)) m ++ hyphen :: m) := by
  unfold Generate
  rw [hm]
  simp [hne]

/-- No character of a generated signature is a hyphen. -/
theorem hyphen_not_mem_generateSignature (hmac : Str → Str → Str) (r : Rigid) (u m : Str) :
    hyphen ∉ generateSignature hmac r u m :=
  hyphen_not_mem_sig _

/-- Verify accepts a two-segment identifier whose signature was generated for
its id segment with empty metadata. -/
theorem verify_two_seg (hmac : Str → Str → Str) (r : Rigid) (u : Str) (v : Nat)
    (hu : hyphen ∉ u) (hparse : ulidParse u = some v) :
    Verify hmac r (u ++ hyphen :: generateSignature hmac r u []) =
      (⟨true, u, []⟩, none) := by
  simp only [Verify, VerifyWith,
    splitOn_two u _ hu (hyphen_not_mem_generateSignature hmac r u [])]
  simp [decodeMeta, hparse, ctc_self]

/-- Verify accepts a three-part identifier whose signature was generated for
its id segment and metadata. -/
theorem verify_three_seg (hmac : Str → Str → Str) (r : Rigid) (u m : Str) (v : Nat)
    (hu : hyphen ∉ u) (hparse : ulidParse u = some v) :
    Verify hmac r (u ++ hyphen :: (generateSignature hmac r u m ++ hyphen :: m)) =
      (⟨true, u, m⟩, none) := by
  have hsp : (m.splitOn hyphen).length ≠ 0 := by
    intro h0
    exact List.splitOnP_ne_nil _ m (List.length_eq_zero.mp h0)
  have hmeta : decodeMeta (u :: generateSignature hmac r u m :: m.splitOn hyphen) = m := by
    unfold decodeMeta
    rw [if_pos (by simp only [List.length_cons]; omega)]
    simp only [List.drop_succ_cons, List.drop_zero]
    exact List.intercalate_splitOn m hyphen
  simp only [Verify, VerifyWith,
    splitOn_full u _ m hu (hyphen_not_mem_generateSignature hmac r u m), hmeta]
  rw [if_neg (by simp only [List.length_cons]; omega)]
  simp [hparse, ctc_self]

/-- NewRigid with an explicit length, written as nested conditionals. -/
theorem newRigid_some_eq (key : Str) (n : Int) :
    NewRigid key (some n) =
      if key = [] then .error RErr.emptySecretKey
      else if n < (MinSignatureLength : Int) ∨ (MaxSignatureLength : Int) < n then
        .error RErr.invalidSigLength
      else .ok ⟨key, n.toNat⟩ := by
  unfold NewRigid
  by_cases hk : key = []
  · subst hk
    simp
  · rw [if_neg (by simpa [List.length_eq_zero] using hk), if_neg hk]

/-- NewRigid without an explicit length, written as a conditional. -/
theorem newRigid_none_eq (key : Str) :
    NewRigid key none =
      if key = [] then .error RErr.emptySecretKey
      else .ok ⟨key, DefaultSignatureLength⟩ := by
  unfold NewRigid
  by_cases hk : key = []
  · subst hk
    simp
  · rw [if_neg (by simpa [List.length_eq_zero] using hk), if_neg hk]

/-- C1: for every instance whose construction succeeded (non-empty secret key,
signature length in the valid range or defaulted), every timestamp and entropy
draw and every metadata string m, including the empty string and strings
containing hyphens, Verify applied to the string returned by Generate with
metadata m on the same instance returns Valid true, the generated id text and
Metadata m, with no error. -/
theorem generate_verify_roundtrip (hmac : Str → Str → Str) (key : Str) (sl : Option Int)
    (r : Rigid) (ts ent : Nat) (m : Str) (_hr : NewRigid key sl = .ok r) :
    Verify hmac r (Generate hmac r ts ent [m]) =
      (⟨true, ulidString (ulidNew ts ent), m⟩, none) := by
  have hu := hyphen_not_mem_ulidString (ulidNew ts ent)
  have hparse := ulidParse_ulidString _ (ulidNew_lt ts ent)
  by_cases hm : m = []
  · subst hm
    rw [Generate_no_meta hmac r ts ent [[]] rfl]
    exact verify_two_seg hmac r _ _ hu hparse
  · rw [Generate_with_meta hmac r ts ent [m] m rfl hm]
    exact verify_three_seg hmac r _ m _ hu hparse

/-- Witness for C1 at a concrete instance, timestamp, entropy and a metadata
string containing a hyphen. -/
theorem generate_verify_roundtrip_witness :
    NewRigid [107] none = .ok rigid0 ∧
      Verify hmac0 rigid0 (Generate hmac0 rigid0 3 5 [metaSample]) =
        (⟨true, ulidString (ulidNew 3 5), metaSample⟩, none) :=
  ⟨rfl, generate_verify_roundtrip hmac0 [107] none rigid0 3 5 metaSample rfl⟩

/-- C2: the signature text is the unpadded upper-cased base32 encoding of the
first signatureLength bytes of the HMAC digest of the id text followed directly
by the metadata bytes, with no delimiter. -/
theorem generateSignature_spec (hmac : Str → Str → Str) (r : Rigid) (u m : Str) :
    generateSignature hmac r u m =
      toUpper (b32SpecEncode ((hmac r.secretKey (u ++ m)).take r.signatureLength)) := by
  unfold generateSignature
  by_cases hm : m = []
  · subst hm
    simp [b32Encode_eq_spec]
  · simp [hm, b32Encode_eq_spec]

/-- C3: when the input parses into at least two segments with a well-formed id
segment but the supplied signature segment's length differs from the recomputed
expected signature's length, Verify fails with the integrity error, and it does
so for every byte-comparison routine whatsoever, so the comparison is never
consulted on unequal lengths. -/
theorem verify_length_mismatch (cmp : Str → Str → Nat) (hmac : Str → Str → Str)
    (r : Rigid) (s : Str) (h2 : 2 ≤ (s.splitOn hyphen).length)
    (hp : (ulidParse ((s.splitOn hyphen).getD 0 [])).isSome = true)
    (hlen : ((s.splitOn hyphen).getD 1 []).length ≠
      (generateSignature hmac r ((s.splitOn hyphen).getD 0 [])
        (decodeMeta (s.splitOn hyphen))).length) :
    VerifyWith cmp hmac r s = (VerifyResult.zero, some RErr.integrityFailure) ∧
      Verify hmac r s = (VerifyResult.zero, some RErr.integrityFailure) := by
  have main : ∀ c : Str → Str → Nat,
      VerifyWith c hmac r s = (VerifyResult.zero, some RErr.integrityFailure) := by
    intro c
    obtain ⟨v, hv⟩ := Option.isSome_iff_exists.mp hp
    simp only [VerifyWith]
    rw [if_neg (by omega)]
    simp only [hv]
    rw [if_pos hlen]
  exact ⟨main cmp, main ConstantTimeCompare⟩

/-- Witness for C3: a generated id segment followed by a one-character
signature segment, against an instance expecting thirteen characters. -/
theorem verify_length_mismatch_witness :
    Verify hmac0 rigid0 (ulidString 0 ++ hyphen :: [65]) =
      (VerifyResult.zero, some RErr.integrityFailure) :=
  (verify_length_mismatch ConstantTimeCompare hmac0 rigid0 (ulidString 0 ++ hyphen :: [65])
    (by decide) (by decide) (by decide)).2

/-- C4 counterexample: the input no-hyphens-here itself contains hyphens, so
Verify splits it into three segments, fails ULID parsing on the first segment
and returns the malformed-id error, not the format error the claim states. -/
theorem verify_no_hyphens_here_counterexample :
    Verify hmac0 rigid0 strNoHyphensHere = (VerifyResult.zero, some RErr.invalidULID) ∧
      (VerifyResult.zero, some RErr.invalidULID) ≠
        ((VerifyResult.zero, some RErr.invalidFormat) :
          VerifyResult × Option RErr) := by
  constructor
  · rfl
  · decide

/-- C4 (amended): Verify of the empty string fails with the format error; a
genuinely single-segment input such as nohyphenshere fails with the format
error; the inputs no-hyphens-here and not-a-ulid-SIGNATURE split into several
segments whose first segment is not a valid ULID and fail with the
malformed-id error. -/
theorem verify_error_taxonomy (hmac : Str → Str → Str) (r : Rigid) :
    Verify hmac r [] = (VerifyResult.zero, some RErr.invalidFormat) ∧
      Verify hmac r strSingleSegment = (VerifyResult.zero, some RErr.invalidFormat) ∧
      Verify hmac r strNoHyphensHere = (VerifyResult.zero, some RErr.invalidULID) ∧
      Verify hmac r strNotAUlid = (VerifyResult.zero, some RErr.invalidULID) :=
  ⟨rfl, rfl, rfl, rfl⟩

/-- C5: construction fails exactly when the secret key is empty or an explicit
signature length lies outside the closed range from four to thirty-two; the
boundary values three and thirty-three fail, four and thirty-two succeed, and
an omitted length defaults to eight and succeeds for any non-empty key. -/
theorem newRigid_validation (key : Str) (n : Int) :
    (NewRigid key none = .ok ⟨key, DefaultSignatureLength⟩ ↔ key ≠ []) ∧
      (key = [] → NewRigid key none = .error RErr.emptySecretKey ∧
        NewRigid key (some n) = .error RErr.emptySecretKey) ∧
      ((∃ r, NewRigid key (some n) = .ok r) ↔
        key ≠ [] ∧ (MinSignatureLength : Int) ≤ n ∧ n ≤ (MaxSignatureLength : Int)) ∧
      (key ≠ [] →
        NewRigid key (some 3) = .error RErr.invalidSigLength ∧
          NewRigid key (some 33) = .error RErr.invalidSigLength ∧
          NewRigid key (some 4) = .ok ⟨key, 4⟩ ∧
          NewRigid key (some 32) = .ok ⟨key, 32⟩) := by
  refine ⟨?_, ?_, ?_, ?_⟩
  · rw [newRigid_none_eq]
    constructor
    · intro h hk
      rw [if_pos hk] at h
      exact absurd h (by simp)
    · intro hk
      rw [if_neg hk]
  · intro hk
    rw [newRigid_none_eq, newRigid_some_eq, if_pos hk, if_pos hk]
    exact ⟨rfl, rfl⟩
  · rw [newRigid_some_eq]
    constructor
    · rintro ⟨r, hr⟩
      by_cases hk : key = []
      · rw [if_pos hk] at hr
        exact absurd hr (by simp)
      · rw [if_neg hk] at hr
        by_cases hcond : n < (MinSignatureLength : Int) ∨ (MaxSignatureLength : Int) < n
        · rw [if_pos hcond] at hr
          exact absurd hr (by simp)
        · push_neg at hcond
          exact ⟨hk, hcond.1, hcond.2⟩
    · rintro ⟨hk, h4, h32⟩
      rw [if_neg hk, if_neg (by omega)]
      exact ⟨_, rfl⟩
  · intro hk
    rw [newRigid_some_eq, newRigid_some_eq, newRigid_some_eq, newRigid_some_eq,
      if_neg hk, if_neg hk, if_neg hk, if_neg hk,
      if_pos (by norm_num [MinSignatureLength, MaxSignatureLength]),
      if_pos (by norm_num [MinSignatureLength, MaxSignatureLength]),
      if_neg (by norm_num [MinSignatureLength, MaxSignatureLength]),
      if_neg (by norm_num [MinSignatureLength, MaxSignatureLength])]
    exact ⟨rfl, rfl, rfl, rfl⟩

/-- Witness for C5 at a concrete one-byte key: lengths three and thirty-three
are rejected, four and thirty-two accepted. -/
theorem newRigid_validation_witness :
    NewRigid [107] (some 3) = .error RErr.invalidSigLength ∧
      NewRigid [107] (some 33) = .error RErr.invalidSigLength ∧
      NewRigid [107] (some 4) = .ok ⟨[107], 4⟩ ∧
      NewRigid [107] (some 32) = .ok ⟨[107], 32⟩ :=
  (newRigid_validation [107] 3).2.2.2 (by decide)

/-- C6: an empty metadata string contributes zero bytes to the HMAC input, so
the signature equals the one over the id text alone, and Generate called with
an explicit empty metadata string returns exactly the same identifier as
Generate called with no metadata argument at all. -/
theorem empty_metadata_equivalence (hmac : Str → Str → Str) (r : Rigid) (u : Str)
    (ts ent : Nat) :
    generateSignature hmac r u [] =
        toUpper (b32SpecEncode ((hmac r.secretKey u).take r.signatureLength)) ∧
      Generate hmac r ts ent [[]] = Generate hmac r ts ent [] := by
  constructor
  · unfold generateSignature
    simp [b32Encode_eq_spec]
  · rfl

/-- C7: for every generated identifier, the first hyphen-delimited segment is
the 26-character encoding of the generated 128-bit value, ExtractULID returns
exactly that value, and ExtractTimestamp returns exactly the millisecond
timestamp used at generation. -/
theorem extract_roundtrip (hmac : Str → Str → Str) (r : Rigid) (ts ent : Nat)
    (mlist : List Str) (hts : ts < 2 ^ 48) :
    ((Generate hmac r ts ent mlist).splitOn hyphen).getD 0 [] =
        ulidString (ulidNew ts ent) ∧
      ExtractULID (Generate hmac r ts ent mlist) = .ok (ulidNew ts ent) ∧
      ExtractTimestamp (Generate hmac r ts ent mlist) = .ok ts := by
  have hu := hyphen_not_mem_ulidString (ulidNew ts ent)
  have hparse := ulidParse_ulidString _ (ulidNew_lt ts ent)
  have hsplit : ∃ rest, (Generate hmac r ts ent mlist).splitOn hyphen =
      ulidString (ulidNew ts ent) ::
        generateSignature hmac r (ulidString (ulidNew ts ent)) (mlist.headD []) :: rest := by
    by_cases hm : mlist.headD [] = []
    · rw [Generate_no_meta hmac r ts ent mlist hm,
        splitOn_two _ _ hu (hyphen_not_mem_generateSignature hmac r _ []), hm]
      exact ⟨[], rfl⟩
    · rw [Generate_with_meta hmac r ts ent mlist _ rfl hm,
        splitOn_full _ _ _ hu (hyphen_not_mem_generateSignature hmac r _ _)]
      exact ⟨_, rfl⟩
  obtain ⟨rest, hsp⟩ := hsplit
  have hEU : ExtractULID (Generate hmac r ts ent mlist) = .ok (ulidNew ts ent) := by
    simp only [ExtractULID, hsp]
    simp [hparse]
  refine ⟨by simp [hsp], hEU, ?_⟩
  simp only [ExtractTimestamp, hEU]
  rw [ulidTime_ulidNew, Nat.mod_eq_of_lt hts]

/-- Witness for C7 at a concrete instance, timestamp three, entropy five and a
hyphenated metadata string. -/
theorem extract_roundtrip_witness :
    ((Generate hmac0 rigid0 3 5 [metaSample]).splitOn hyphen).getD 0 [] =
        ulidString (ulidNew 3 5) ∧
      ExtractULID (Generate hmac0 rigid0 3 5 [metaSample]) = .ok (ulidNew 3 5) ∧
      ExtractTimestamp (Generate hmac0 rigid0 3 5 [metaSample]) = .ok 3 :=
  extract_roundtrip hmac0 rigid0 3 5 [metaSample] (by norm_num)

/-- C8: Verify returns no error exactly when the returned result has Valid
true, and whenever it returns an error the returned result is the zero value:
Valid false with empty ULID and metadata fields. -/
theorem verify_zero_on_error (hmac : Str → Str → Str) (r : Rigid) (s : Str) :
    ((Verify hmac r s).2 = none ↔ (Verify hmac r s).1.Valid = true) ∧
      ((Verify hmac r s).2 ≠ none → (Verify hmac r s).1 = VerifyResult.zero) := by
  have h : (Verify hmac r s).1 = VerifyResult.zero ∧ (Verify hmac r s).2 ≠ none ∨
      (Verify hmac r s).1.Valid = true ∧ (Verify hmac r s).2 = none := by
    simp only [Verify, VerifyWith]
    split
    · left
      exact ⟨rfl, by simp⟩
    · split
      · left
        exact ⟨rfl, by simp⟩
      · split
        · left
          exact ⟨rfl, by simp⟩
        · split
          · left
            exact ⟨rfl, by simp⟩
          · right
            exact ⟨rfl, rfl⟩
  rcases h with ⟨h1, h2⟩ | ⟨h1, h2⟩
  · refine ⟨⟨fun hn => absurd hn h2, fun hv => ?_⟩, fun _ => h1⟩
    rw [h1] at hv
    simp [VerifyResult.zero] at hv
  · exact ⟨⟨fun _ => h1, fun _ => h2⟩, fun hn => absurd h2 hn⟩

/-- Witness for C8 on a concrete failing input. -/
theorem verify_zero_on_error_witness :
    ((Verify hmac0 rigid0 strNotAUlid).2 = none ↔
        (Verify hmac0 rigid0 strNotAUlid).1.Valid = true) ∧
      ((Verify hmac0 rigid0 strNotAUlid).2 ≠ none →
        (Verify hmac0 rigid0 strNotAUlid).1 = VerifyResult.zero) :=
  verify_zero_on_error hmac0 rigid0 strNotAUlid

/-- C9: on every input with fewer than two hyphen-delimited segments, both
ExtractULID and ExtractTimestamp fail with the format error, before any ULID
parsing; in particular a bare 26-character id with no signature segment is
rejected. -/
theorem extract_single_segment (s : Str) (h : (s.splitOn hyphen).length < 2) :
    ExtractULID s = .error RErr.invalidFormat ∧
      ExtractTimestamp s = .error RErr.invalidFormat := by
  have h1 : ExtractULID s = .error RErr.invalidFormat := by
    simp only [ExtractULID]
    rw [if_pos h]
  exact ⟨h1, by simp only [ExtractTimestamp, h1]⟩

/-- Witness for C9: the bare 26-character encoding of the zero value, itself a
valid id encoding, is rejected by both extractors with the format error. -/
theorem extract_single_segment_witness :
    ExtractULID (ulidString 0) = .error RErr.invalidFormat ∧
      ExtractTimestamp (ulidString 0) = .error RErr.invalidFormat :=
  extract_single_segment (ulidString 0) (by decide)

end RigidGo
